import Mathlib

/-!
# Verification of the ClaudeNetwork ingestion core

A shallow embedding of the ingestion/parsing subsystem of the repository
(`src/ingest/size_parser.py`, `email_parser.py`, `normalizer.py`,
`csv_parser.py`, `pipeline.py` and `src/cache_manager.py`) together with
proofs about it.

Modelling conventions:
* Python strings are modelled as `List Char`; inputs in this data set are
  ASCII, so Python's Unicode case folding coincides with `Char.toLower`.
* Python regular expressions are translated into explicit backtracking
  matchers that follow the leftmost-match / greedy-with-backtracking
  semantics of `re.search` / `re.match` for the concrete patterns used.
* `float` literals captured by the size regex consist of digits and dots
  only; their values are modelled as exact rationals, computed in integer
  arithmetic (IEEE-754 rounding of decimal literals is not modelled).  A
  `float()` call that raises `ValueError` is modelled as an exceptional
  (`Except.error`) outcome.
* Filesystem modification times are abstracted as integers.
-/

deriving instance DecidableEq for Except

namespace ClaudeNetwork

/-! ## Python string primitives -/

/-- The characters Python's `str.strip()` (and regex `\s`) treats as
whitespace, restricted to ASCII. -/
def pyIsSpace (c : Char) : Bool :=
  c = ' ' || c = '\t' || c = '\n' || c = '\r' || c = '\x0b' || c = '\x0c'

/-- Drop leading characters satisfying `p` (left part of `str.strip`). -/
def lstripP (p : Char → Bool) (l : List Char) : List Char := l.dropWhile p

/-- Drop trailing characters satisfying `p` (right part of `str.strip`). -/
def rstripP (p : Char → Bool) (l : List Char) : List Char :=
  (l.reverse.dropWhile p).reverse

/-- Python `str.strip()` (whitespace on both ends). -/
def pyStrip (l : List Char) : List Char := rstripP pyIsSpace (lstripP pyIsSpace l)

/-- Python `str.strip(cs)`: strip any of the characters `cs` from both ends. -/
def stripSet (cs : List Char) (l : List Char) : List Char :=
  rstripP (fun c => cs.contains c) (lstripP (fun c => cs.contains c) l)

/-- Python `str.rstrip(cs)`. -/
def rstripSet (cs : List Char) (l : List Char) : List Char :=
  rstripP (fun c => cs.contains c) l

/-- Python `str.lower()` (ASCII). -/
def lowerList (l : List Char) : List Char := l.map Char.toLower

/-- Worker for `collapseWs`: the flag records whether we are inside a
whitespace run whose single replacement space was already emitted. -/
def collapseWsGo : Bool → List Char → List Char
  | _, [] => []
  | inWs, c :: rest =>
    if pyIsSpace c then
      if inWs then collapseWsGo true rest else ' ' :: collapseWsGo true rest
    else c :: collapseWsGo false rest

/-- Python `re.sub(r"\s+", " ", s)`: collapse every maximal whitespace run
into a single space. -/
def collapseWs (l : List Char) : List Char := collapseWsGo false l

/-- Convenience: the character list of a string literal. -/
def chars (s : String) : List Char := s.data

/-! ## `src/ingest/size_parser.py` -/

/-- Regex class `[\d.]`. -/
def isDigitDot (c : Char) : Bool := c.isDigit || c = '.'

/-- Regex class `[BKMG]` under `re.IGNORECASE`. -/
def isSizeSuffix (c : Char) : Bool :=
  c = 'B' || c = 'K' || c = 'M' || c = 'G' ||
  c = 'b' || c = 'k' || c = 'm' || c = 'g'

/-- `_SIZE_RE.match`, the anchored regex `^\s*([\d.]+)\s*([BKMG]?)\s*$`
(case-insensitive).  Returns the two captured groups on success; the second
group is `none` when the optional suffix is absent. -/
def sizeReMatch (l : List Char) : Option (List Char × Option Char) :=
  let l1 := l.dropWhile pyIsSpace
  let num := l1.takeWhile isDigitDot
  if num.isEmpty then none
  else
    let rest := (l1.dropWhile isDigitDot).dropWhile pyIsSpace
    match rest with
    | [] => some (num, none)
    | c :: r =>
      if isSizeSuffix c && (r.dropWhile pyIsSpace).isEmpty then some (num, some c)
      else none

/-- Numeric value of a list of decimal digits. -/
def natOfDigits (l : List Char) : Nat := l.foldl (fun a c => 10 * a + (c.toNat - 48)) 0

/-- Whether Python `float()` succeeds on a `[\d.]+` capture: it raises
`ValueError` on inputs such as `"."` or `"1.2.3"` (no digit, or more than
one dot). -/
def floatOk (l : List Char) : Bool := l.count '.' ≤ 1 && l.any Char.isDigit

/-- `int(float(num) * mult)` for a valid capture `num = ip "." fp` and a
natural multiplier, computed exactly: the value is
`(ip·10^L + fp) / 10^L` with `L = fp.length`, so the truncated product is
`⌊(ip·10^L + fp)·mult / 10^L⌋` (all operands non-negative, so flooring
Nat division is Python's truncation toward zero).  The decimal literal is
modelled as an exact rational; IEEE-754 rounding is outside the model. -/
def intFloatMul (l : List Char) (mult : Nat) : Nat :=
  let ip := l.takeWhile (fun c => c ≠ '.')
  let fp := (l.dropWhile (fun c => c ≠ '.')).tail
  (natOfDigits ip * 10 ^ fp.length + natOfDigits fp) * mult / 10 ^ fp.length

/-- `_MULTIPLIERS.get(suffix.upper(), 1)` with `""` mapping to 1. -/
def multOf (c : Option Char) : Nat :=
  match c with
  | none => 1
  | some c =>
    match c.toUpper with
    | 'B' => 1
    | 'K' => 1024
    | 'M' => 1024 ^ 2
    | 'G' => 1024 ^ 3
    | _ => 1

/-- `parse_size` from `size_parser.py`.  `.ok none` is Python's `None`
return; `.error ()` is an escaping `ValueError` from `float()`. -/
def parse_size (s : List Char) : Except Unit (Option Int) :=
  if s.isEmpty then .ok none
  else
    match sizeReMatch (pyStrip s) with
    | none => .ok none
    | some (num, suf) =>
      if floatOk num then .ok (some (Int.ofNat (intFloatMul num (multOf suf))))
      else .error ()

/-! ## `src/cache_manager.py` -/

/-- A file as seen by `Path.exists()` / `Path.stat().st_mtime`. -/
structure FsFile where
  present : Bool
  mtime : Int
deriving DecidableEq, Repr

/-- `is_cache_fresh` from `cache_manager.py`: the cache file must exist and
no existing source may have a strictly newer modification time. -/
def is_cache_fresh (cache : FsFile) (sources : List FsFile) : Bool :=
  if !cache.present then false
  else !(sources.any (fun s => s.present && decide (cache.mtime < s.mtime)))

/-! ## `src/ingest/normalizer.py` -/

/-- `normalize_email`: strip then lower-case. -/
def normalize_email (l : List Char) : List Char := lowerList (pyStrip l)

/-- The `name.strip().strip('"').strip("'").strip()` chain used in
`normalize_name` and `parse_email_address`. -/
def dequote (l : List Char) : List Char :=
  pyStrip (stripSet ['\''] (stripSet ['"'] (pyStrip l)))

/-- Python `s.split(sep, 1)` for a one-character separator that occurs in
`s`: the text before the first occurrence and the text after it. -/
def splitFirst (sep : Char) (l : List Char) : List Char × List Char :=
  (l.takeWhile (fun c => c ≠ sep), (l.dropWhile (fun c => c ≠ sep)).tail)

/-- `normalize_name` from `normalizer.py`. -/
def normalize_name (raw : List Char) : List Char :=
  let n := collapseWs (dequote raw)
  if n.contains ',' then
    let p := splitFirst ',' n
    let last := pyStrip p.1
    let first := pyStrip p.2
    if !first.isEmpty && !last.isEmpty && !(n.contains '@') then
      first ++ ' ' :: last
    else n
  else n

/-! ## `src/ingest/email_parser.py`

The three regexes `_ADDR_RE`, `_BARE_EMAIL_RE` and `_IMCEAEX_RE` are
translated into explicit matchers with `re.search` semantics: start
positions are tried left to right, and at a given start position the
pattern's own greedy/lazy backtracking order is followed. -/

/-- Regex class `\w` (ASCII). -/
def isWordChar (c : Char) : Bool := c.isAlpha || c.isDigit || c = '_'

/-- Regex class `[\w.]`. -/
def isWordDot (c : Char) : Bool := isWordChar c || c = '.'

/-- Case-insensitive list-prefix test (the regexes use `re.IGNORECASE`). -/
def isPrefixCI : List Char → List Char → Bool
  | [], _ => true
  | _ :: _, [] => false
  | p :: ps, c :: cs => (p.toLower == c.toLower) && isPrefixCI ps cs

/-- First success of `f` over a list of candidates. -/
def tryEach (f : α → Option β) : List α → Option β
  | [] => none
  | a :: as =>
    match f a with
    | some b => some b
    | none => tryEach f as

/-- The literal `_CN=RECIPIENTS_CN=` of `_IMCEAEX_RE`. -/
def cnMarker : List Char := chars "_CN=RECIPIENTS_CN="

/-- All suffixes following a (case-insensitive) occurrence of `cnMarker`,
in left-to-right order of the occurrence.  Scanning stops at a newline
because `.*` does not cross `\n`. -/
def markerSuffixes : List Char → List (List Char)
  | [] => []
  | l@(c :: rest) =>
    (if isPrefixCI cnMarker l then [l.drop cnMarker.length] else []) ++
      (if c = '\n' then [] else markerSuffixes rest)

/-- Attempt `(\w+)@([\w.]+)` at the start of the list (both groups greedy,
and greediness cannot be backtracked usefully here). -/
def cnGroups (l : List Char) : Option (List Char × List Char) :=
  let u := l.takeWhile isWordChar
  match l.dropWhile isWordChar with
  | '@' :: r =>
    let d := r.takeWhile isWordDot
    if !u.isEmpty && !d.isEmpty then some (u, d) else none
  | _ => none

/-- The literal `IMCEAEX-` prefix of `_IMCEAEX_RE`. -/
def imceaexLead : List Char := chars "IMCEAEX-"

/-- `_IMCEAEX_RE.search`: leftmost start position where `IMCEAEX-`
matches; from there the greedy `.*` tries the rightmost reachable
`_CN=RECIPIENTS_CN=` occurrence first. -/
def imceaexSearch : List Char → Option (List Char × List Char)
  | [] => none
  | l@(_ :: rest) =>
    if isPrefixCI imceaexLead l then
      match tryEach cnGroups (markerSuffixes (l.drop imceaexLead.length)).reverse with
      | some r => some r
      | none => imceaexSearch rest
    else imceaexSearch rest

/-- `resolve_imceaex` from `email_parser.py`. -/
def resolve_imceaex (email : List Char) : List Char :=
  match imceaexSearch email with
  | some (u, d) => lowerList u ++ '@' :: lowerList d
  | none => lowerList email

/-- Attempt `<([^>]+)>` at the start of the list, returning group 2. -/
def bracketAt : List Char → Option (List Char)
  | '<' :: rest =>
    let g := rest.takeWhile (fun c => c != '>')
    if !g.isEmpty && !(rest.dropWhile (fun c => c != '>')).isEmpty then some g
    else none
  | _ => none

/-- Attempt `\s*<([^>]+)>` at the start of the list. -/
def afterNameWs (l : List Char) : Option (List Char) :=
  bracketAt (l.dropWhile pyIsSpace)

/-- Attempt `'?"?\s*<([^>]+)>` (the part of `_ADDR_RE` following the lazy
display-name group), with each greedy `?` backtracked on failure. -/
def tailAfterName (l : List Char) : Option (List Char) :=
  let q2 : List Char → Option (List Char) := fun m =>
    match m with
    | '"' :: r => afterNameWs r <|> afterNameWs m
    | _ => afterNameWs m
  match l with
  | '\'' :: r => q2 r <|> q2 l
  | _ => q2 l

/-- The lazy group `([^"<]*?)` followed by `tailAfterName`: the group grows
one character at a time, shortest first, and may not contain `"` or `<`.
Returns (group 1, group 2). -/
def nameScan : List Char → List Char → Option (List Char × List Char)
  | [], acc => (tailAfterName []).map (fun g2 => (acc.reverse, g2))
  | l@(c :: r), acc =>
    match tailAfterName l with
    | some g2 => some (acc.reverse, g2)
    | none => if c != '"' && c != '<' then nameScan r (c :: acc) else none

/-- The whole optional display-name part `"?'?([^"<]*?)'?"?\s*` followed by
the bracketed email, with the two leading greedy `?`s backtracked on
failure. -/
def withNamePart (l : List Char) : Option (List Char × List Char) :=
  let afterDQ : List Char → Option (List Char × List Char) := fun m =>
    match m with
    | '\'' :: r => nameScan r [] <|> nameScan m []
    | _ => nameScan m []
  match l with
  | '"' :: r => afterDQ r <|> afterDQ l
  | _ => afterDQ l

/-- `_ADDR_RE` attempted at one start position: the optional group is
greedy, so the with-name alternative is tried before the bare bracket. -/
def matchAddr (l : List Char) : Option (List Char × List Char) :=
  match withNamePart l with
  | some r => some r
  | none => (bracketAt l).map (fun g2 => ([], g2))

/-- `_ADDR_RE.search`: start positions left to right. -/
def addrSearch : List Char → Option (List Char × List Char)
  | [] => none
  | l@(_ :: rest) =>
    match matchAddr l with
    | some r => some r
    | none => addrSearch rest

/-- Regex class `[\w.+-]` (local part of `_BARE_EMAIL_RE`). -/
def isBareLocal (c : Char) : Bool := isWordChar c || c = '.' || c = '+' || c = '-'

/-- Regex class `[\w.-]` (domain part of `_BARE_EMAIL_RE`). -/
def isBareDomain (c : Char) : Bool := isWordChar c || c = '.' || c = '-'

/-- Split at the rightmost `'.'` that is immediately followed by a word
character (greedy backtracking of `[\w.-]+` before `\.\w+`). -/
def lastDotSplit : List Char → Option (List Char × List Char)
  | [] => none
  | c :: rest =>
    match lastDotSplit rest with
    | some (pre, post) => some (c :: pre, post)
    | none =>
      if c = '.' then
        match rest with
        | d :: _ => if isWordChar d then some ([], rest) else none
        | [] => none
      else none

/-- `_BARE_EMAIL_RE` (`[\w.+-]+@[\w.-]+\.\w+`) attempted at one start
position; returns group 0 (the whole match). -/
def bareAt (l : List Char) : Option (List Char) :=
  let a := l.takeWhile isBareLocal
  if a.isEmpty then none
  else
    match l.dropWhile isBareLocal with
    | '@' :: r =>
      let b := r.takeWhile isBareDomain
      match lastDotSplit b with
      | some (pre, post) =>
        if pre.isEmpty then none
        else some (a ++ '@' :: pre ++ '.' :: post.takeWhile isWordChar)
      | none => none
    | _ => none

/-- `_BARE_EMAIL_RE.search`. -/
def bareEmailSearch : List Char → Option (List Char)
  | [] => none
  | l@(_ :: rest) =>
    match bareAt l with
    | some g0 => some g0
    | none => bareEmailSearch rest

/-- `parse_email_address` from `email_parser.py`: returns
(display name, email); `([], [])` is the failure sentinel. -/
def parse_email_address (raw : List Char) : List Char × List Char :=
  let r := dequote raw
  if r.isEmpty then ([], [])
  else
    match addrSearch r with
    | some (g1, g2) =>
      let name0 := dequote g1
      let email := resolve_imceaex (pyStrip g2)
      let name := stripSet [',', ' '] (collapseWs name0)
      (name, lowerList email)
    | none =>
      match bareEmailSearch r with
      | some g0 => ([], lowerList (resolve_imceaex g0))
      | none => ([], [])

/-- Python `to_blob.split(">, ")`: non-overlapping occurrences of the
three-character separator, scanned left to right. -/
def splitGtCommaSp : List Char → List Char → List (List Char)
  | [], acc => [acc.reverse]
  | '>' :: ',' :: ' ' :: rest, acc => acc.reverse :: splitGtCommaSp rest []
  | c :: rest, acc => splitGtCommaSp rest (c :: acc)

/-- Python `to_blob.split(",")`. -/
def splitComma : List Char → List Char → List (List Char)
  | [], acc => [acc.reverse]
  | ',' :: rest, acc => acc.reverse :: splitComma rest []
  | c :: rest, acc => splitComma rest (c :: acc)

/-- Python `part.endswith(">")` on a character list. -/
def endsWithGt (l : List Char) : Bool := l.getLast? == some '>'

/-- The `part.strip().rstrip(",").strip()` chain of `split_recipients`
(also applied to the whole blob). -/
def cleanPart (p : List Char) : List Char := pyStrip (rstripSet [','] (pyStrip p))

/-- The indexed loop of `split_recipients`: clean each part, drop empties,
and re-append `'>'` to every part except the last that does not already
end with one. -/
def fixParts : List (List Char) → List (List Char)
  | [] => []
  | p :: rest =>
    let p' := cleanPart p
    match rest with
    | [] => if p'.isEmpty then [] else [p']
    | _ :: _ =>
      (if p'.isEmpty then []
       else [if endsWithGt p' then p' else p' ++ ['>']]) ++ fixParts rest

/-- `split_recipients` from `email_parser.py`. -/
def split_recipients (to_blob : List Char) : List (List Char) :=
  if (pyStrip to_blob).isEmpty then []
  else
    let t := cleanPart to_blob
    if t.isEmpty then []
    else if t.contains '>' then fixParts (splitGtCommaSp t [])
    else ((splitComma t []).map pyStrip).filter (fun x => !x.isEmpty)

/-- `parse_recipients` from `email_parser.py`: parse every token, keeping
only those with a non-empty resolved email. -/
def parse_recipients (to_blob : List Char) : List (List Char × List Char) :=
  (split_recipients to_blob).filterMap (fun token =>
    let p := parse_email_address token
    if p.2.isEmpty then none else some p)

/-! ## `src/ingest/csv_parser.py` -/

/-- Regex fragment `\d{1,2}` followed by the literal `sep` (with the
backtracking from two digits to one; the separators used are never
digits). -/
def d12 (sep : Char) : List Char → Option (List Char)
  | c1 :: c2 :: r =>
    if !c1.isDigit then none
    else if c2.isDigit then
      match r with
      | c3 :: r2 => if c3 = sep then some r2 else none
      | [] => none
    else if c2 = sep then some r else none
  | _ => none

/-- `_DATE_START_RE.match`: the anchored prefix pattern
`^\d{1,2}/\d{1,2}/\d{4}\s+\d{1,2}:\d{2}`. -/
def dateStartMatch (l : List Char) : Bool :=
  match d12 '/' l with
  | none => false
  | some r1 =>
    match d12 '/' r1 with
    | none => false
    | some r2 =>
      match r2 with
      | a :: b :: c :: d :: r3 =>
        a.isDigit && b.isDigit && c.isDigit && d.isDigit &&
          (match r3 with
           | s :: r4 =>
             pyIsSpace s &&
               (match d12 ':' (r4.dropWhile pyIsSpace) with
                | some (x :: y :: _) => x.isDigit && y.isDigit
                | some _ => false
                | none => false)
           | [] => false)
      | _ => false

/-- The character loop of `_parse_csv_fields`: quote-aware scan with the
early return once three fields are closed (the rest of the line, with
trailing commas stripped, becomes the fourth field), and the pad-to-four
flush at end of line. -/
def scanFields : List Char → Bool → List Char → List (List Char) → List (List Char)
  | [], _, cur, fields =>
    let fs := fields ++ [pyStrip cur.reverse]
    (fs ++ List.replicate (4 - fs.length) []).take 4
  | '"' :: '"' :: rest2, true, cur, fields => scanFields rest2 true ('"' :: cur) fields
  | '"' :: rest, true, cur, fields => scanFields rest false cur fields
  | '"' :: rest, false, cur, fields => scanFields rest true cur fields
  | ',' :: rest, inQ, cur, fields =>
    if inQ then scanFields rest inQ (',' :: cur) fields
    else
      let fs := fields ++ [pyStrip cur.reverse]
      if fs.length = 3 then fs ++ [cleanPart rest]
      else scanFields rest false [] fs
  | c :: rest, inQ, cur, fields => scanFields rest inQ (c :: cur) fields

/-- `_parse_csv_fields` from `csv_parser.py`; always returns 4 fields. -/
def _parse_csv_fields (line : List Char) : List (List Char) :=
  scanFields line false [] []

/-- The `rstrip("\n").rstrip("\r")` applied to each physical line. -/
def rstripNL (l : List Char) : List Char := rstripSet ['\r'] (rstripSet ['\n'] l)

/-- The continuation-joining loop of `iter_raw_lines`, carrying the
buffered current logical line. -/
def joinLines : List (List Char) → Option (List Char) → List (List Char)
  | [], cur => cur.toList
  | raw :: ls, cur =>
    let line := rstripNL raw
    if (pyStrip line).isEmpty then joinLines ls cur
    else if dateStartMatch line then
      match cur with
      | some c => c :: joinLines ls (some line)
      | none => joinLines ls (some line)
    else
      match cur with
      | some c => joinLines ls (some (c ++ ' ' :: pyStrip line))
      | none => joinLines ls none

/-- `iter_raw_lines` from `csv_parser.py`, on a file given as its list of
physical lines (the first physical line is the always-skipped header; an
empty list models the empty file, for which the function yields nothing). -/
def iter_raw_lines : List (List Char) → List (List Char)
  | [] => []
  | _hdr :: rest => joinLines rest none

/-- Field `i` of a parsed field list (`fields[i]`). -/
def getF (fs : List (List Char)) (i : Nat) : List Char := fs.getD i []

/-- One raw row as yielded by `parse_csv`. -/
structure RawRow where
  date : List Char
  size : List Char
  from_raw : List Char
  to_raw : List Char
deriving DecidableEq, Repr

/-- `parse_csv` from `csv_parser.py`. -/
def parse_csv (physLines : List (List Char)) : List RawRow :=
  (iter_raw_lines physLines).map (fun line =>
    let fs := _parse_csv_fields line
    ⟨getF fs 0, getF fs 1, getF fs 2, getF fs 3⟩)

/-! ## `datetime.strptime` with the default format `"%m/%d/%Y %H:%M"`

CPython's `_strptime` compiles the format to the regex
`(1[0-2]|0[1-9]|[1-9])/(3[01]|[12]\d|0[1-9]|[1-9]| [1-9])/(\d\d\d\d)\s+(2[0-3]|[0-1]\d|\d):([0-5]\d|\d)`,
requires the match to consume the whole string, and then validates the
values through the `datetime` constructor.  Only this default format (the
one the pipeline is run with) is modelled. -/

/-- Numeric value of a digit character. -/
def digitVal (c : Char) : Nat := c.toNat - 48

/-- A two-digits-or-one-digit field followed by a literal separator, with
the regex's ordered alternation (two digits first, then the one-digit
fallback). -/
def pField (valid2 : Char → Char → Bool) (valid1 : Char → Bool) (sep : Char) :
    List Char → Option (Nat × List Char)
  | c1 :: c2 :: s :: r =>
    if !c1.isDigit then none
    else if c2.isDigit then
      if valid2 c1 c2 && (s == sep) then some (10 * digitVal c1 + digitVal c2, r)
      else if valid1 c1 && (c2 == sep) then some (digitVal c1, s :: r)
      else none
    else if valid1 c1 && (c2 == sep) then some (digitVal c1, s :: r)
    else none
  | [c1, c2] =>
    if c1.isDigit && valid1 c1 && (c2 == sep) then some (digitVal c1, []) else none
  | _ => none

/-- Two-digit alternatives `1[0-2]|0[1-9]` of `%m`. -/
def monthV2 (c1 c2 : Char) : Bool :=
  (c1 = '1' && ('0' ≤ c2 && c2 ≤ '2')) || (c1 = '0' && ('1' ≤ c2 && c2 ≤ '9'))

/-- One-digit alternative `[1-9]` of `%m` and `%d`. -/
def monthV1 (c : Char) : Bool := '1' ≤ c && c ≤ '9'

/-- Two-digit alternatives `3[01]|[12]\d|0[1-9]` of `%d`. -/
def dayV2 (c1 c2 : Char) : Bool :=
  (c1 = '3' && (c2 = '0' || c2 = '1')) || ((c1 = '1' || c1 = '2') && c2.isDigit) ||
    (c1 = '0' && ('1' ≤ c2 && c2 ≤ '9'))

/-- `%d` followed by a literal separator: CPython's day pattern is
`(3[01]|[12]\d|0[1-9]|[1-9]| [1-9])` — the last alternative accepts a
space-padded day, and is reachable exactly when the first character is a
space. -/
def pDaySep (sep : Char) (l : List Char) : Option (Nat × List Char) :=
  match l with
  | ' ' :: c2 :: s :: r =>
    if ('1' ≤ c2 && c2 ≤ '9') && (s == sep) then some (digitVal c2, r) else none
  | _ => pField dayV2 monthV1 sep l

/-- Two-digit alternatives `2[0-3]|[0-1]\d` of `%H`. -/
def hourV2 (c1 c2 : Char) : Bool :=
  (c1 = '2' && ('0' ≤ c2 && c2 ≤ '3')) || ((c1 = '0' || c1 = '1') && c2.isDigit)

/-- `%Y`: exactly four digits. -/
def pYear4 : List Char → Option (Nat × List Char)
  | a :: b :: c :: d :: r =>
    if a.isDigit && b.isDigit && c.isDigit && d.isDigit then
      some (1000 * digitVal a + 100 * digitVal b + 10 * digitVal c + digitVal d, r)
    else none
  | _ => none

/-- `\s+` (the blank in the format string). -/
def pWs1 : List Char → Option (List Char)
  | c :: r => if pyIsSpace c then some (r.dropWhile pyIsSpace) else none
  | [] => none

/-- `%M` as the final field: `([0-5]\d|\d)` must end exactly at the end of
the string (`strptime` raises on unconverted trailing data). -/
def pMinuteEnd : List Char → Option Nat
  | [c1] => if c1.isDigit then some (digitVal c1) else none
  | [c1, c2] =>
    if ('0' ≤ c1 && c1 ≤ '5') && c2.isDigit then some (10 * digitVal c1 + digitVal c2)
    else none
  | _ => none

/-- Gregorian leap year (as implemented by `datetime`). -/
def isLeap (y : Nat) : Bool := (y % 4 = 0 && y % 100 ≠ 0) || y % 400 = 0

/-- Length of a month. -/
def daysInMonth (y m : Nat) : Nat :=
  if m = 2 then (if isLeap y then 29 else 28)
  else if m = 4 || m = 6 || m = 9 || m = 11 then 30 else 31

/-- A wall-clock timestamp (to minute precision, all the pipeline uses). -/
structure DateTime where
  year : Nat
  month : Nat
  day : Nat
  hour : Nat
  minute : Nat
deriving DecidableEq, Repr

/-- The `datetime(...)` constructor's range validation. -/
def validDateTime (y mo d h mi : Nat) : Bool :=
  decide (1 ≤ y ∧ y ≤ 9999 ∧ 1 ≤ mo ∧ mo ≤ 12 ∧ 1 ≤ d ∧ d ≤ daysInMonth y mo ∧
    h ≤ 23 ∧ mi ≤ 59)

/-- `datetime.strptime(s, "%m/%d/%Y %H:%M")`, `none` on `ValueError`. -/
def strptimeMDYHM (l : List Char) : Option DateTime :=
  match pField monthV2 monthV1 '/' l with
  | none => none
  | some (mo, r1) =>
    match pDaySep '/' r1 with
    | none => none
    | some (d, r2) =>
      match pYear4 r2 with
      | none => none
      | some (y, r3) =>
        match pWs1 r3 with
        | none => none
        | some r4 =>
          match pField hourV2 Char.isDigit ':' r4 with
          | none => none
          | some (h, r5) =>
            match pMinuteEnd r5 with
            | none => none
            | some mi => if validDateTime y mo d h mi then some ⟨y, mo, d, h, mi⟩ else none

/-- `_parse_timestamp` from `pipeline.py` (with the default date format). -/
def _parse_timestamp (s : List Char) : Option DateTime := strptimeMDYHM (pyStrip s)

/-! ## Calendar arithmetic for the derived columns

The pipeline delegates these to polars (`dt.weekday()` is the ISO weekday,
1 = Monday … 7 = Sunday).  They are modelled through the proleptic
Gregorian ordinal (`date.toordinal` semantics: 0001-01-01 ↦ 1). -/

/-- Days in the months of year `y` strictly before month `m`. -/
def daysBeforeMonth (y m : Nat) : Nat :=
  (List.range (m - 1)).foldl (fun a i => a + daysInMonth y (i + 1)) 0

/-- Days in the years strictly before year `y` (proleptic Gregorian). -/
def daysBeforeYear (y : Nat) : Nat :=
  let n := y - 1
  n * 365 + n / 4 - n / 100 + n / 400

/-- Proleptic Gregorian ordinal of a date (0001-01-01 ↦ 1). -/
def toOrdinal (dt : DateTime) : Nat :=
  daysBeforeYear dt.year + daysBeforeMonth dt.year dt.month + dt.day

/-- polars `dt.weekday()`: ISO weekday, 1 = Monday … 7 = Sunday
(0001-01-08, ordinal 8, is a Monday: `(8 + 6) % 7 + 1 = 1`). -/
def polarsWeekday (dt : DateTime) : Nat := (toOrdinal dt + 6) % 7 + 1

/-- Reference day-of-week used to state the claims: 0 = Monday, anchored
on the fact that ordinal 1 (0001-01-01) is a Monday. -/
def dayOfWeekM0 (dt : DateTime) : Nat := (toOrdinal dt - 1) % 7

/-- Auxiliary quantity of the ISO 8601 week rule. -/
def isoPfun (y : Nat) : Nat := (y + y / 4 - y / 100 + y / 400) % 7

/-- Number of ISO weeks in year `y`. -/
def isoWeeksInYear (y : Nat) : Nat :=
  if isoPfun y = 4 || isoPfun (y - 1) = 3 then 53 else 52

/-- The `%G` ISO year and `%V` ISO week number of a date. -/
def isoWeekPair (dt : DateTime) : Int × Nat :=
  let w := polarsWeekday dt
  let doy := daysBeforeMonth dt.year dt.month + dt.day
  let week := (10 + doy - w) / 7
  if week = 0 then ((dt.year : Int) - 1, isoWeeksInYear (dt.year - 1))
  else if week > isoWeeksInYear dt.year then ((dt.year : Int) + 1, 1)
  else ((dt.year : Int), week)

/-! ## `src/ingest/pipeline.py` -/

/-- The run-time configuration consumed by the pipeline (the date format
is fixed to its default, which is the one modelled by `strptimeMDYHM`). -/
structure DatasetCfg where
  afterHoursStart : Int
  afterHoursEnd : Int
  weekendDays : List Int
deriving DecidableEq, Repr

/-- The defaults of `DatasetConfig` in `config.py`. -/
def defaultCfg : DatasetCfg := ⟨18, 7, [5, 6]⟩

/-- The per-row fields accumulated by the loop of `_ingest_single_csv`
(everything except `msg_id` and the bulk-computed derived columns). -/
structure RecordCore where
  ts : DateTime
  size_bytes : Int
  from_email : List Char
  from_name : List Char
  to_emails : List (List Char)
  to_names : List (List Char)
deriving DecidableEq, Repr

/-- The validation chain applied to one scanned row by
`_ingest_single_csv`: `.ok none` is a dropped row (`continue` after
incrementing the error counter), `.ok (some _)` an accepted row, and
`.error ()` an exception escaping the row (nothing in the loop catches
one). -/
def processRow (row : RawRow) : Except Unit (Option RecordCore) :=
  match _parse_timestamp row.date with
  | none => .ok none
  | some ts =>
    match parse_size row.size with
    | .error e => .error e
    | .ok sz =>
      let size_bytes := sz.getD 0
      let fp := parse_email_address row.from_raw
      if fp.2.isEmpty then .ok none
      else
        let from_email := normalize_email fp.2
        let from_name := normalize_name fp.1
        let recips := parse_recipients row.to_raw
        if recips.isEmpty then .ok none
        else
          let pairs := recips.filterMap (fun p =>
            let e := normalize_email p.2
            if e.isEmpty then none else some (normalize_name p.1, e))
          if pairs.isEmpty then .ok none
          else
            .ok (some ⟨ts, size_bytes, from_email, from_name,
              pairs.map Prod.snd, pairs.map Prod.fst⟩)

/-- One full output row.  The time-derived columns are computed by polars
expressions over the whole file in the source; being pure per-row
functions of the timestamp, they are modelled row-wise. -/
structure Record where
  msg_id : Nat
  timestamp : DateTime
  size_bytes : Int
  from_email : List Char
  from_name : List Char
  to_emails : List (List Char)
  to_names : List (List Char)
  n_recipients : Nat
  week_id : Int × Nat
  hour : Nat
  day_of_week : Nat
  is_after_hours : Bool
  is_weekend : Bool
deriving DecidableEq, Repr

/-- Assembles one output row: the record dict built in the loop plus the
`with_columns` derived columns (`weekday() - 1`, the after-hours OR, and
weekend membership). -/
def mkRecord (cfg : DatasetCfg) (msgId : Nat) (core : RecordCore) : Record :=
  let h := core.ts.hour
  let dow := polarsWeekday core.ts - 1
  { msg_id := msgId
    timestamp := core.ts
    size_bytes := core.size_bytes
    from_email := core.from_email
    from_name := core.from_name
    to_emails := core.to_emails
    to_names := core.to_names
    n_recipients := core.to_emails.length
    week_id := isoWeekPair core.ts
    hour := h
    day_of_week := dow
    is_after_hours := decide (cfg.afterHoursStart ≤ (h : Int)) || decide ((h : Int) < cfg.afterHoursEnd)
    is_weekend := cfg.weekendDays.contains (dow : Int) }

/-- `_ingest_single_csv` on the parsed rows of one file: returns the
records, the next message id and the error count, or propagates an
escaping exception. -/
def _ingest_single_csv (cfg : DatasetCfg) : List RawRow → Nat → Except Unit (List Record × Nat × Nat)
  | [], msgId => .ok ([], msgId, 0)
  | row :: rows, msgId =>
    match processRow row with
    | .error e => .error e
    | .ok none =>
      match _ingest_single_csv cfg rows msgId with
      | .error e => .error e
      | .ok (recs, nid, errs) => .ok (recs, nid, errs + 1)
    | .ok (some core) =>
      match _ingest_single_csv cfg rows (msgId + 1) with
      | .error e => .error e
      | .ok (recs, nid, errs) => .ok (mkRecord cfg msgId core :: recs, nid, errs)

/-- The per-file loop of `run_ingestion` (the recompute path, after the
cache-freshness check): files in order, `next_id` threaded through,
outputs concatenated, errors summed. -/
def run_ingestion (cfg : DatasetCfg) : List (List RawRow) → Nat → Except Unit (List Record × Nat × Nat)
  | [], nextId => .ok ([], nextId, 0)
  | file :: files, nextId =>
    match _ingest_single_csv cfg file nextId with
    | .error e => .error e
    | .ok (recs, nid, errs) =>
      match run_ingestion cfg files nid with
      | .error e => .error e
      | .ok (recs2, nid2, errs2) => .ok (recs ++ recs2, nid2, errs + errs2)

/-- The whole pipeline on the physical lines of each CSV file. -/
def fullPipeline (cfg : DatasetCfg) (filesLines : List (List (List Char))) :
    Except Unit (List Record × Nat × Nat) :=
  run_ingestion cfg (filesLines.map parse_csv) 0

/-- Whether a scanned row is successfully parsed (passes every check). -/
def isSuccessRow (row : RawRow) : Bool :=
  match processRow row with
  | .ok (some _) => true
  | _ => false

/-- Total number of successfully parsed rows across all files. -/
def successCount (files : List (List RawRow)) : Nat :=
  (files.map (fun rows => (rows.filter isSuccessRow).length)).sum

/-! ## Claim theorems -/

/-- C1: ingesting a file consisting of a header line followed by the single
line `11/30/2010 13:27,10.8K,"Hopp, Bryan" <BHopp@spokanecounty.org>,"Smith, John" <JSmith@spokanecounty.org>,,,,,`
(with the default date format) emits exactly one record, whose
`from_email` is `bhopp@spokanecounty.org`, `to_emails` is exactly
`[jsmith@spokanecounty.org]`, `size_bytes` is `11059` and `n_recipients`
is `1`. -/
theorem c1_end_to_end_single_row :
    Except.map (fun o => o.1.map (fun r => (r.from_email, r.to_emails, r.size_bytes, r.n_recipients)))
      (fullPipeline defaultCfg [[chars "Date,Size,From,To,,,,",
        chars "11/30/2010 13:27,10.8K,\"Hopp, Bryan\" <BHopp@spokanecounty.org>,\"Smith, John\" <JSmith@spokanecounty.org>,,,,,"]]) =
    .ok [(chars "bhopp@spokanecounty.org", [chars "jsmith@spokanecounty.org"], (11059 : Int), 1)] := by
  decide

/-- C3: `parse_size` evaluated at the claim's sample inputs, and at the
input `"."`, where — contrary to the claim and to the function's own
docstring — it raises `ValueError` out of `float(".")` instead of
returning `None`: the capture regex `[\d.]+` accepts strings that are not
valid float literals. -/
theorem c3_parse_size_raises_on_dot :
    parse_size (chars ".") = .error () ∧
    parse_size (chars "1.2.3") = .error () ∧
    parse_size (chars "10.8K") = .ok (some 11059) ∧
    parse_size (chars "") = .ok none ∧
    parse_size (chars "abc") = .ok none ∧
    parse_size (chars "10k") = parse_size (chars "10K") ∧
    parse_size (chars "10K") = .ok (some 10240) := by
  decide

/-- C4: the row whose size field is `"."` (timestamp valid, addresses
valid) makes `ValueError` escape `_ingest_single_csv`'s per-row
processing, contrary to the claim that an unparseable size is recovered
to 0 bytes and that no exception escapes a row; a row with the
unparseable size `"abc"` is, as claimed, kept with `size_bytes = 0`. -/
theorem c4_size_exception_escapes_row :
    processRow ⟨chars "11/30/2010 13:27", chars ".", chars "a@b.com", chars "c@d.com"⟩ =
      .error () ∧
    Except.map (Option.map RecordCore.size_bytes)
      (processRow ⟨chars "11/30/2010 13:27", chars "abc", chars "a@b.com", chars "c@d.com"⟩) =
      .ok (some 0) ∧
    _ingest_single_csv defaultCfg
      [⟨chars "11/30/2010 13:27", chars ".", chars "a@b.com", chars "c@d.com"⟩] 0 =
      .error () := by
  decide

/-- C7: whenever `_IMCEAEX_RE` matches, `resolve_imceaex` returns
`lower(user)@lower(domain)`; otherwise it returns the input lower-cased;
and the spec's sample legacy token resolves to
`bhopp@spokanecounty.org`. -/
theorem c7_imceaex_resolution :
    (∀ e u d, imceaexSearch e = some (u, d) →
      resolve_imceaex e = lowerList u ++ '@' :: lowerList d) ∧
    (∀ e, imceaexSearch e = none → resolve_imceaex e = lowerList e) ∧
    resolve_imceaex
      (chars "IMCEAEX-_O=SPOKANE+20COUNTY_OU=GALACTIC_CN=RECIPIENTS_CN=BHOPP@spokanecounty.org") =
      chars "bhopp@spokanecounty.org" := by
  refine ⟨fun e u d h => ?_, fun e h => ?_, by decide⟩
  · simp [resolve_imceaex, h]
  · simp [resolve_imceaex, h]

/-- Witness for C7: the two implications applied at concrete inputs. -/
theorem c7_imceaex_resolution_witness :
    resolve_imceaex (chars "User@Example.com") = lowerList (chars "User@Example.com") ∧
    resolve_imceaex (chars "IMCEAEX-x_CN=RECIPIENTS_CN=Ab@cd.e") =
      lowerList (chars "Ab") ++ '@' :: lowerList (chars "cd.e") :=
  ⟨c7_imceaex_resolution.2.1 (chars "User@Example.com") (by decide),
   c7_imceaex_resolution.1 (chars "IMCEAEX-x_CN=RECIPIENTS_CN=Ab@cd.e")
     (chars "Ab") (chars "cd.e") (by decide)⟩

/-- C9 counterexample: with the cache and one existing source sharing the
same modification time, `is_cache_fresh` reports the cache fresh although
its modification time is not strictly newer than the source's — the code
treats equal timestamps as fresh, the claim requires strictly newer. -/
theorem c9_equal_mtime_counterexample :
    is_cache_fresh ⟨true, 5⟩ [⟨true, 5⟩] = true ∧
    ¬ (∀ s ∈ [(⟨true, 5⟩ : FsFile)], s.present = true → s.mtime < (5 : Int)) := by
  constructor
  · decide
  · intro h
    exact absurd (h ⟨true, 5⟩ (by simp) rfl) (by decide)

/-- C9 amended: the cached output is considered fresh iff the cache file
exists and its modification time is at least as new as (not strictly
newer than) every existing source's modification time; sources passed are
the CSV files together with the data directory. -/
theorem c9_freshness_amended (cache : FsFile) (sources : List FsFile) :
    is_cache_fresh cache sources = true ↔
      (cache.present = true ∧ ∀ s ∈ sources, s.present = true → s.mtime ≤ cache.mtime) := by
  cases cache with
  | mk pres mt =>
    cases pres
    · simp [is_cache_fresh]
    · simp [is_cache_fresh, List.any_eq_true, not_lt]

/-- Witness for C9 amended: both directions at concrete caches. -/
theorem c9_freshness_amended_witness :
    is_cache_fresh ⟨true, 7⟩ [⟨true, 3⟩, ⟨false, 99⟩] = true ∧
    ¬ is_cache_fresh ⟨true, 2⟩ [⟨true, 3⟩] = true :=
  ⟨(c9_freshness_amended ⟨true, 7⟩ [⟨true, 3⟩, ⟨false, 99⟩]).mpr (by decide),
   fun h =>
    absurd (((c9_freshness_amended ⟨true, 2⟩ [⟨true, 3⟩]).mp h).2 ⟨true, 3⟩ (by simp) rfl)
      (by decide)⟩

/-- C5 counterexample: the blob `a>, b` contains an angle bracket, yet the
last returned token `b` does not end with a closing bracket — the code
re-appends `'>'` only to tokens before the last one. -/
theorem c5_last_token_counterexample :
    (chars "a>, b").contains '>' = true ∧
    split_recipients (chars "a>, b") = [chars "a>", chars "b"] ∧
    endsWithGt (chars "b") = false := by
  decide

/-! ### Helper lemmas -/

/-- A character not satisfying `p` survives `dropWhile p`. -/
theorem mem_dropWhile_of {p : Char → Bool} {a : Char} (hp : p a = false) :
    ∀ l : List Char, a ∈ l → a ∈ l.dropWhile p := by
  intro l h
  induction l with
  | nil => cases h
  | cons c cs ih =>
    rw [List.dropWhile_cons]
    by_cases hc : p c = true
    · rw [if_pos hc]
      rcases List.mem_cons.mp h with h1 | h2
      · subst h1; rw [hp] at hc; cases hc
      · exact ih h2
    · rw [if_neg hc]; exact h

/-- A character not satisfying `p` survives `rstripP p`. -/
theorem mem_rstripP_of {p : Char → Bool} {a : Char} (hp : p a = false)
    {l : List Char} (h : a ∈ l) : a ∈ rstripP p l := by
  unfold rstripP
  rw [List.mem_reverse]
  exact mem_dropWhile_of hp _ (List.mem_reverse.mpr h)

/-- A non-whitespace character survives `pyStrip`. -/
theorem mem_pyStrip_of {a : Char} (ha : pyIsSpace a = false)
    {l : List Char} (h : a ∈ l) : a ∈ pyStrip l :=
  mem_rstripP_of ha (mem_dropWhile_of ha _ h)

/-- A closing bracket survives the `strip`/`rstrip(",")` chain. -/
theorem gt_mem_cleanPart {l : List Char} (h : '>' ∈ l) : '>' ∈ cleanPart l :=
  mem_pyStrip_of (by decide) (mem_rstripP_of (by decide) (mem_pyStrip_of (by decide) h))

/-- Appending `'>'` makes a token end with `'>'`. -/
theorem endsWithGt_append_gt (l : List Char) : endsWithGt (l ++ ['>']) = true := by
  simp [endsWithGt, List.getLast?_concat]

/-- Unfolding of `fixParts` on a list with at least two parts. -/
theorem fixParts_cons_cons (p q : List Char) (rest : List (List Char)) :
    fixParts (p :: q :: rest) =
      (if (cleanPart p).isEmpty = true then []
       else [if endsWithGt (cleanPart p) = true then cleanPart p else cleanPart p ++ ['>']]) ++
      fixParts (q :: rest) := rfl

/-- Every token produced by the indexed loop of `split_recipients` is
non-empty. -/
theorem fixParts_tokens_ne_nil : ∀ parts, ∀ tk ∈ fixParts parts, tk ≠ [] := by
  intro parts
  induction parts with
  | nil => simp [fixParts]
  | cons p rest ih =>
    cases rest with
    | nil =>
      intro tk htk
      simp only [fixParts] at htk
      split at htk
      · cases htk
      · rename_i hne
        rw [List.mem_singleton.mp htk]
        exact List.isEmpty_eq_false.mp (Bool.of_not_eq_true hne)
    | cons q rest2 =>
      intro tk htk
      rw [fixParts_cons_cons] at htk
      rcases List.mem_append.mp htk with h1 | h2
      · split at h1
        · cases h1
        · rename_i hne
          rw [List.mem_singleton.mp h1]
          split
          · exact List.isEmpty_eq_false.mp (Bool.of_not_eq_true hne)
          · exact List.append_ne_nil_of_right_ne_nil _ (by simp)
      · exact ih tk h2

/-- Every token before the last one produced by the indexed loop of
`split_recipients` ends with `'>'`. -/
theorem fixParts_front_gt : ∀ parts, ∀ tk ∈ (fixParts parts).dropLast, endsWithGt tk = true := by
  intro parts
  induction parts with
  | nil => simp [fixParts]
  | cons p rest ih =>
    cases rest with
    | nil =>
      intro tk htk
      simp only [fixParts] at htk
      split at htk <;> simp at htk
    | cons q rest2 =>
      intro tk htk
      rw [fixParts_cons_cons] at htk
      have hmem : tk ∈ (if (cleanPart p).isEmpty = true then []
          else [if endsWithGt (cleanPart p) = true then cleanPart p else cleanPart p ++ ['>']]) ∨
          tk ∈ (fixParts (q :: rest2)).dropLast := by
        by_cases hnil : fixParts (q :: rest2) = []
        · rw [hnil, List.append_nil] at htk
          exact Or.inl ((List.dropLast_sublist _).subset htk)
        · rw [List.dropLast_append_of_ne_nil _ hnil] at htk
          exact List.mem_append.mp htk
      rcases hmem with h1 | h2
      · split at h1
        · cases h1
        · rw [List.mem_singleton.mp h1]
          split
          · assumption
          · exact endsWithGt_append_gt _
      · exact ih tk h2

/-- C5: corrected form.  For a blob containing `'>'`, `split_recipients`
splits on the literal `'>, '` boundary, discards empty tokens, and
re-appends the stripped bracket to every token except the last — so every
token before the last ends with `'>'` (the last one need not); the spec's
two-recipient example yields exactly its 2 tokens, each ending in
`'>'`. -/
theorem c5_bracket_split_amended (blob : List Char) (h : '>' ∈ blob) :
    (∀ tk ∈ split_recipients blob, tk ≠ []) ∧
    (∀ tk ∈ (split_recipients blob).dropLast, endsWithGt tk = true) ∧
    split_recipients (chars "Ted Warne <tedw@pro-msi.com>, \"Hopp, Bryan\" <BHopp@spokanecounty.org>") =
      [chars "Ted Warne <tedw@pro-msi.com>", chars "\"Hopp, Bryan\" <BHopp@spokanecounty.org>"] := by
  have hstrip : '>' ∈ pyStrip blob := mem_pyStrip_of (by decide) h
  have hclean : '>' ∈ cleanPart blob := gt_mem_cleanPart h
  have h1 : (pyStrip blob).isEmpty = false :=
    List.isEmpty_eq_false.mpr (List.ne_nil_of_mem hstrip)
  have h2 : (cleanPart blob).isEmpty = false :=
    List.isEmpty_eq_false.mpr (List.ne_nil_of_mem hclean)
  have h3 : (cleanPart blob).contains '>' = true := List.elem_eq_true_of_mem hclean
  have hsplit : split_recipients blob = fixParts (splitGtCommaSp (cleanPart blob) []) := by
    simp [split_recipients, h1, h2, h3]
    exact fun hc => absurd hclean hc
  rw [hsplit]
  exact ⟨fixParts_tokens_ne_nil _, fixParts_front_gt _, by decide⟩

/-- Witness for C5: the amended theorem applied to the example blob. -/
theorem c5_bracket_split_amended_witness :
    endsWithGt (chars "Ted Warne <tedw@pro-msi.com>") = true :=
  (c5_bracket_split_amended
      (chars "Ted Warne <tedw@pro-msi.com>, \"Hopp, Bryan\" <BHopp@spokanecounty.org>")
      (by decide)).2.1 (chars "Ted Warne <tedw@pro-msi.com>") (by decide)

/-- `takeWhile (· ≠ sep)` stops exactly at the first occurrence of
`sep`. -/
theorem takeWhile_append_sep (sep : Char) (pre post : List Char) (h : sep ∉ pre) :
    (pre ++ sep :: post).takeWhile (fun c => decide (c ≠ sep)) = pre := by
  induction pre with
  | nil => simp [List.takeWhile_cons]
  | cons a l ih =>
    have ha : a ≠ sep := fun e => h (by simp [e])
    have ih2 := ih (fun hm => h (List.mem_cons_of_mem a hm))
    simp [List.takeWhile_cons, ha]
    simpa using ih2

/-- `dropWhile (· ≠ sep)` drops exactly up to the first occurrence of
`sep`. -/
theorem dropWhile_append_sep (sep : Char) (pre post : List Char) (h : sep ∉ pre) :
    (pre ++ sep :: post).dropWhile (fun c => decide (c ≠ sep)) = sep :: post := by
  induction pre with
  | nil => simp [List.dropWhile_cons]
  | cons a l ih =>
    have ha : a ≠ sep := fun e => h (by simp [e])
    have ih2 := ih (fun hm => h (List.mem_cons_of_mem a hm))
    simp [List.dropWhile_cons, ha]
    simpa using ih2

/-- `s.split(sep, 1)` around the first occurrence of `sep`. -/
theorem splitFirst_of_no_sep (sep : Char) (pre post : List Char) (h : sep ∉ pre) :
    splitFirst sep (pre ++ sep :: post) = (pre, post) := by
  unfold splitFirst
  rw [takeWhile_append_sep sep pre post h, dropWhile_append_sep sep pre post h]
  rfl

/-- C10: `normalize_name` reorders on the first comma only.  For every
name whose cleaned form (dequoted, whitespace-collapsed) is
`pre ++ ',' :: post` with `','` not occurring in `pre`, both sides
non-empty after trimming, and no `'@'` anywhere, the result is the
trimmed `post`, a space, then the trimmed `pre` — so a name with two
commas such as `A, B, C` becomes `B, C A`. -/
theorem c10_normalize_name_first_comma :
    (∀ raw pre post, collapseWs (dequote raw) = pre ++ ',' :: post → ',' ∉ pre →
      pyStrip pre ≠ [] → pyStrip post ≠ [] → '@' ∉ pre ++ ',' :: post →
      normalize_name raw = pyStrip post ++ ' ' :: pyStrip pre) ∧
    normalize_name (chars "A, B, C") = chars "B, C A" := by
  refine ⟨fun raw pre post hn hpre h1 h2 h3 => ?_, by decide⟩
  have hc : (pre ++ ',' :: post).contains ',' = true :=
    List.elem_eq_true_of_mem (List.mem_append_right _ (List.mem_cons_self _ _))
  have hat : (pre ++ ',' :: post).contains '@' = false := by
    rw [Bool.eq_false_iff]
    intro hcc
    exact h3 (List.elem_iff.mp hcc)
  have hsf := splitFirst_of_no_sep ',' pre post hpre
  have e1 : (pyStrip pre).isEmpty = false := List.isEmpty_eq_false.mpr h1
  have e2 : (pyStrip post).isEmpty = false := List.isEmpty_eq_false.mpr h2
  simp only [normalize_name, hn, hc, if_true, hsf, e1, e2, hat]
  simp

/-- Witness for C10: the reordering implication applied at `A, B, C`. -/
theorem c10_normalize_name_first_comma_witness :
    normalize_name (chars "A, B, C") = pyStrip (chars " B, C") ++ ' ' :: pyStrip (chars "A") :=
  c10_normalize_name_first_comma.1 (chars "A, B, C") (chars "A") (chars " B, C")
    (by decide) (by decide) (by decide) (by decide) (by decide)

/-- A line matching the date-start pattern begins with a digit. -/
theorem dateStart_head : ∀ l : List Char, dateStartMatch l = true →
    ∃ c r, l = c :: r ∧ c.isDigit = true := by
  intro l h
  cases l with
  | nil => simp [dateStartMatch, d12] at h
  | cons c1 t =>
    refine ⟨c1, t, rfl, ?_⟩
    cases hd : c1.isDigit
    · exfalso
      cases t with
      | nil => simp [dateStartMatch, d12] at h
      | cons c2 r => simp [dateStartMatch, d12, hd] at h
    · rfl

/-- Digits are not Python whitespace. -/
theorem isDigit_not_space {c : Char} (h : c.isDigit = true) : pyIsSpace c = false := by
  cases hs : pyIsSpace c
  · rfl
  · exfalso
    have h6 : c = ' ' ∨ c = '\t' ∨ c = '\n' ∨ c = '\r' ∨ c = '\x0b' ∨ c = '\x0c' := by
      simpa [pyIsSpace, or_assoc] using hs
    rcases h6 with e | e | e | e | e | e <;> subst e <;> exact absurd h (by decide)

/-- A date-starting line is not blank. -/
theorem dateStart_strip_ne {l : List Char} (h : dateStartMatch l = true) :
    pyStrip l ≠ [] := by
  obtain ⟨c, r, hl, hd⟩ := dateStart_head l h
  subst hl
  intro he
  have hm : c ∈ pyStrip (c :: r) :=
    mem_pyStrip_of (isDigit_not_space hd) (List.mem_cons_self _ _)
  rw [he] at hm
  cases hm

/-- With a buffered line and only non-blank continuation lines remaining,
`joinLines` emits exactly the buffer extended by each trimmed
continuation, space-separated, in order. -/
theorem joinLines_conts (cs : List (List Char)) :
    ∀ acc : List Char,
      (∀ c ∈ cs, dateStartMatch (rstripNL c) = false ∧ pyStrip (rstripNL c) ≠ []) →
      joinLines cs (some acc) =
        [cs.foldl (fun a c => a ++ ' ' :: pyStrip (rstripNL c)) acc] := by
  induction cs with
  | nil => intro acc _; rfl
  | cons c cs ih =>
    intro acc hc
    obtain ⟨hd, hb⟩ := hc c (List.mem_cons_self _ _)
    have hbe : (pyStrip (rstripNL c)).isEmpty = false := List.isEmpty_eq_false.mpr hb
    have ih2 := ih (acc ++ ' ' :: pyStrip (rstripNL c))
      (fun x hx => hc x (List.mem_cons_of_mem c hx))
    simp only [joinLines, hbe, hd, Bool.false_eq_true, if_false, List.foldl_cons]
    exact ih2

/-- C6: for any header, any date-prefixed start line and any sequence of
non-blank, non-date-prefixed continuation lines, `iter_raw_lines` emits
exactly one logical line: the start line followed by each continuation
fragment trimmed, joined by single spaces, in the original order. -/
theorem c6_linejoiner_reconstruction (hdr s : List Char) (cs : List (List Char))
    (hs : dateStartMatch (rstripNL s) = true)
    (hc : ∀ c ∈ cs, dateStartMatch (rstripNL c) = false ∧ pyStrip (rstripNL c) ≠ []) :
    iter_raw_lines (hdr :: s :: cs) =
      [cs.foldl (fun a c => a ++ ' ' :: pyStrip (rstripNL c)) (rstripNL s)] := by
  have hbe : (pyStrip (rstripNL s)).isEmpty = false :=
    List.isEmpty_eq_false.mpr (dateStart_strip_ne hs)
  simp only [iter_raw_lines, joinLines, hbe, hs, Bool.false_eq_true, if_false, if_true]
  exact joinLines_conts cs (rstripNL s) hc

/-- Witness for C6: one start line and two continuations reconstruct into
one logical line. -/
theorem c6_linejoiner_reconstruction_witness :
    iter_raw_lines [chars "Header", chars "1/1/2010 8:00,5K,a,b", chars "  cont1", chars "cont2"] =
      [chars "1/1/2010 8:00,5K,a,b cont1 cont2"] :=
  (c6_linejoiner_reconstruction (chars "Header") (chars "1/1/2010 8:00,5K,a,b")
    [chars "  cont1", chars "cont2"] (by decide) (by decide)).trans (by decide)

/-- Unfolding of `_ingest_single_csv` on a non-empty row list. -/
theorem ingest_cons (cfg : DatasetCfg) (row : RawRow) (rows : List RawRow) (start : Nat) :
    _ingest_single_csv cfg (row :: rows) start =
      match processRow row with
      | .error e => .error e
      | .ok none =>
        match _ingest_single_csv cfg rows start with
        | .error e => .error e
        | .ok (recs, nid, errs) => .ok (recs, nid, errs + 1)
      | .ok (some core) =>
        match _ingest_single_csv cfg rows (start + 1) with
        | .error e => .error e
        | .ok (recs, nid, errs) => .ok (mkRecord cfg start core :: recs, nid, errs) := rfl

/-- Within one file, the emitted ids are exactly the consecutive block
starting at `start`, one per successfully parsed row, and the returned
next id is `start` plus the number of successes. -/
theorem ingest_ids (cfg : DatasetCfg) :
    ∀ (rows : List RawRow) (start : Nat) (out : List Record × Nat × Nat),
      _ingest_single_csv cfg rows start = .ok out →
      out.1.map Record.msg_id = List.range' start (rows.filter isSuccessRow).length ∧
      out.2.1 = start + (rows.filter isSuccessRow).length := by
  intro rows
  induction rows with
  | nil =>
    intro start out h
    simp only [_ingest_single_csv, Except.ok.injEq] at h
    subst h
    exact ⟨rfl, rfl⟩
  | cons row rows ih =>
    intro start out h
    rw [ingest_cons] at h
    cases hp : processRow row with
    | error e => rw [hp] at h; cases h
    | ok o =>
      rw [hp] at h
      cases o with
      | none =>
        cases hrec : _ingest_single_csv cfg rows start with
        | error e => rw [hrec] at h; cases h
        | ok trip =>
          obtain ⟨recs, nid, errs⟩ := trip
          rw [hrec] at h
          simp only [Except.ok.injEq] at h
          subst h
          have hsucc : isSuccessRow row = false := by simp [isSuccessRow, hp]
          obtain ⟨m1, n1⟩ := ih start (recs, nid, errs) hrec
          simpa [List.filter_cons, hsucc] using ⟨m1, n1⟩
      | some core =>
        cases hrec : _ingest_single_csv cfg rows (start + 1) with
        | error e => rw [hrec] at h; cases h
        | ok trip =>
          obtain ⟨recs, nid, errs⟩ := trip
          rw [hrec] at h
          simp only [Except.ok.injEq] at h
          subst h
          have hsucc : isSuccessRow row = true := by simp [isSuccessRow, hp]
          obtain ⟨m1, n1⟩ := ih (start + 1) (recs, nid, errs) hrec
          constructor
          · simp only [List.filter_cons, hsucc, if_true, List.length_cons, List.map_cons,
              List.range'_succ]
            rw [m1]
            rfl
          · simp only [List.filter_cons, hsucc, if_true, List.length_cons]
            dsimp only at n1 ⊢
            omega

/-- Unfolding of `run_ingestion` on a non-empty file list. -/
theorem run_ingestion_cons (cfg : DatasetCfg) (file : List RawRow)
    (files : List (List RawRow)) (nextId : Nat) :
    run_ingestion cfg (file :: files) nextId =
      match _ingest_single_csv cfg file nextId with
      | .error e => .error e
      | .ok (recs, nid, errs) =>
        match run_ingestion cfg files nid with
        | .error e => .error e
        | .ok (recs2, nid2, errs2) => .ok (recs ++ recs2, nid2, errs + errs2) := rfl

/-- Across files, the emitted ids form the consecutive block starting at
`start` of length the total success count, in file order. -/
theorem run_ids (cfg : DatasetCfg) :
    ∀ (files : List (List RawRow)) (start : Nat) (out : List Record × Nat × Nat),
      run_ingestion cfg files start = .ok out →
      out.1.map Record.msg_id = List.range' start (successCount files) ∧
      out.2.1 = start + successCount files := by
  intro files
  induction files with
  | nil =>
    intro start out h
    simp only [run_ingestion, Except.ok.injEq] at h
    subst h
    simp [successCount]
  | cons file files ih =>
    intro start out h
    rw [run_ingestion_cons] at h
    split at h
    · cases h
    · rename_i recs nid errs hf
      split at h
      · cases h
      · rename_i recs2 nid2 errs2 hr
        simp only [Except.ok.injEq] at h
        subst h
        obtain ⟨m1, n1⟩ := ingest_ids cfg file start (recs, nid, errs) hf
        obtain ⟨m2, n2⟩ := ih nid (recs2, nid2, errs2) hr
        dsimp only at m1 n1 m2 n2
        have hsc : successCount (file :: files) =
            (file.filter isSuccessRow).length + successCount files := by
          simp [successCount]
        constructor
        · show (recs ++ recs2).map Record.msg_id = List.range' start (successCount (file :: files))
          rw [List.map_append, m1, m2, n1, hsc,
            Nat.add_comm (List.length _) (successCount files)]
          exact List.range'_append_1 start _ _
        · show nid2 = start + successCount (file :: files)
          omega

/-- C2: if the pipeline completes (no row raises), the multiset of emitted
`msg_id`s, read off in output order, is exactly `0, 1, …, K-1` where `K`
is the number of successfully parsed rows across all files in order — no
gaps, no duplicates, dropped rows consume no id. -/
theorem c2_msg_id_contiguity (cfg : DatasetCfg) (files : List (List RawRow))
    (out : List Record × Nat × Nat) (h : run_ingestion cfg files 0 = .ok out) :
    out.1.map Record.msg_id = List.range (successCount files) ∧
    out.1.length = successCount files := by
  obtain ⟨hm, _⟩ := run_ids cfg files 0 out h
  refine ⟨by rw [hm, List.range_eq_range'], ?_⟩
  have hlen := congrArg List.length hm
  simpa using hlen

/-- Input rows for the C2 witness: a file with one good and one dropped
row, then a file with one good row (whose size is unparseable but
recovered). -/
def c2rows1 : List RawRow :=
  [⟨chars "1/4/2010 19:05", chars "3", chars "a@b.cd", chars "e@f.gh"⟩,
   ⟨chars "bad", chars "3", chars "a@b.cd", chars "e@f.gh"⟩]

/-- Second input file for the C2 witness. -/
def c2rows2 : List RawRow := [⟨chars "1/5/2010 6:00", chars "x", chars "p@q.rs", chars "t@u.vw"⟩]

/-- Witness for C2: on two concrete files with a dropped row in between,
the ids come out as `range 2`. -/
theorem c2_msg_id_contiguity_witness :
    Except.map (fun o => o.1.map Record.msg_id) (run_ingestion defaultCfg [c2rows1, c2rows2] 0) =
      .ok (List.range (successCount [c2rows1, c2rows2])) := by
  cases hrun : run_ingestion defaultCfg [c2rows1, c2rows2] 0 with
  | error e =>
    exfalso
    have hok : (run_ingestion defaultCfg [c2rows1, c2rows2] 0).toOption.isSome = true := by decide
    rw [hrun] at hok
    simp [Except.toOption] at hok
  | ok out =>
    have hm := (c2_msg_id_contiguity defaultCfg [c2rows1, c2rows2] out hrun).1
    simp only [Except.map, hm]

/-- Every record in a file's output comes from a successfully processed
row, assembled by `mkRecord`. -/
theorem ingest_mem (cfg : DatasetCfg) :
    ∀ (rows : List RawRow) (start : Nat) (out : List Record × Nat × Nat),
      _ingest_single_csv cfg rows start = .ok out →
      ∀ rec ∈ out.1, ∃ row i core, processRow row = .ok (some core) ∧
        rec = mkRecord cfg i core := by
  intro rows
  induction rows with
  | nil =>
    intro start out h
    simp only [_ingest_single_csv, Except.ok.injEq] at h
    subst h
    intro rec hrec
    cases hrec
  | cons row rows ih =>
    intro start out h
    rw [ingest_cons] at h
    cases hp : processRow row with
    | error e => rw [hp] at h; cases h
    | ok o =>
      rw [hp] at h
      cases o with
      | none =>
        cases hrec : _ingest_single_csv cfg rows start with
        | error e => rw [hrec] at h; cases h
        | ok trip =>
          obtain ⟨recs, nid, errs⟩ := trip
          rw [hrec] at h
          simp only [Except.ok.injEq] at h
          subst h
          exact ih start (recs, nid, errs) hrec
      | some core =>
        cases hrec : _ingest_single_csv cfg rows (start + 1) with
        | error e => rw [hrec] at h; cases h
        | ok trip =>
          obtain ⟨recs, nid, errs⟩ := trip
          rw [hrec] at h
          simp only [Except.ok.injEq] at h
          subst h
          intro rec hrec2
          rcases List.mem_cons.mp hrec2 with h1 | h2
          · exact ⟨row, start, core, hp, h1⟩
          · exact ih (start + 1) (recs, nid, errs) hrec rec h2

/-- Every record in the pipeline's output comes from a successfully
processed row, assembled by `mkRecord`. -/
theorem run_mem (cfg : DatasetCfg) :
    ∀ (files : List (List RawRow)) (start : Nat) (out : List Record × Nat × Nat),
      run_ingestion cfg files start = .ok out →
      ∀ rec ∈ out.1, ∃ row i core, processRow row = .ok (some core) ∧
        rec = mkRecord cfg i core := by
  intro files
  induction files with
  | nil =>
    intro start out h
    simp only [run_ingestion, Except.ok.injEq] at h
    subst h
    intro rec hrec
    cases hrec
  | cons file files ih =>
    intro start out h
    rw [run_ingestion_cons] at h
    split at h
    · cases h
    · rename_i recs nid errs hf
      split at h
      · cases h
      · rename_i recs2 nid2 errs2 hr
        simp only [Except.ok.injEq] at h
        subst h
        intro rec hrec
        rcases List.mem_append.mp hrec with h1 | h2
        · exact ingest_mem cfg file start (recs, nid, errs) hf rec h1
        · exact ih nid (recs2, nid2, errs2) hr rec h2

/-- An accepted row's timestamp is the one `strptime` parsed from its
date field. -/
theorem processRow_ts {row : RawRow} {core : RecordCore}
    (h : processRow row = .ok (some core)) :
    strptimeMDYHM (pyStrip row.date) = some core.ts := by
  unfold processRow _parse_timestamp at h
  cases hts : strptimeMDYHM (pyStrip row.date) with
  | none => rw [hts] at h; cases h
  | some ts =>
    rw [hts] at h
    cases hsz : parse_size row.size with
    | error e => rw [hsz] at h; cases h
    | ok sz =>
      rw [hsz] at h
      dsimp only [] at h
      split at h
      · simp at h
      · split at h
        · simp at h
        · split at h
          · simp at h
          · simp only [Except.ok.injEq, Option.some.injEq] at h
            rw [← h]

/-- A timestamp accepted by `strptime` has a positive day of month (the
`datetime` constructor validates it). -/
theorem strptime_day_pos {l : List Char} {dt : DateTime}
    (h : strptimeMDYHM l = some dt) : 1 ≤ dt.day := by
  unfold strptimeMDYHM at h
  split at h
  · exact Option.noConfusion h
  · split at h
    · exact Option.noConfusion h
    · split at h
      · exact Option.noConfusion h
      · split at h
        · exact Option.noConfusion h
        · split at h
          · exact Option.noConfusion h
          · split at h
            · exact Option.noConfusion h
            · split at h
              · rename_i hv
                simp only [Option.some.injEq] at h
                subst h
                unfold validDateTime at hv
                rw [decide_eq_true_eq] at hv
                exact hv.2.2.2.2.1
              · exact Option.noConfusion h

/-- On dates with a positive day (hence positive ordinal), the pipeline's
`weekday() - 1` equals the Monday-is-0 reference weekday. -/
theorem dow_sub_one {dt : DateTime} (hd : 1 ≤ dt.day) :
    polarsWeekday dt - 1 = dayOfWeekM0 dt := by
  have h1 : dt.day ≤ toOrdinal dt := by unfold toOrdinal; omega
  have h2 : 1 ≤ toOrdinal dt := le_trans hd h1
  unfold polarsWeekday dayOfWeekM0
  omega

/-- C8: every emitted record's `day_of_week` is the calendar day of week
with 0 = Monday (anchored below on 2010-11-29, a Monday, and 2010-12-05,
a Sunday), its `is_after_hours` is exactly the OR of the two hour
comparisons (not an interval test), and its `is_weekend` is membership of
`day_of_week` in the configured weekend-day set. -/
theorem c8_derived_columns (cfg : DatasetCfg) (files : List (List RawRow))
    (out : List Record × Nat × Nat) (h : run_ingestion cfg files 0 = .ok out) :
    (∀ rec ∈ out.1,
      rec.day_of_week = dayOfWeekM0 rec.timestamp ∧
      rec.is_after_hours =
        (decide (cfg.afterHoursStart ≤ (rec.hour : Int)) ||
          decide ((rec.hour : Int) < cfg.afterHoursEnd)) ∧
      rec.is_weekend = cfg.weekendDays.contains ((rec.day_of_week : Int))) ∧
    dayOfWeekM0 ⟨2010, 11, 29, 0, 0⟩ = 0 ∧ dayOfWeekM0 ⟨2010, 12, 5, 0, 0⟩ = 6 := by
  refine ⟨?_, by decide, by decide⟩
  intro rec hrec
  obtain ⟨row, i, core, hproc, hrec_eq⟩ := run_mem cfg files 0 out h rec hrec
  subst hrec_eq
  have hd : 1 ≤ core.ts.day := strptime_day_pos (processRow_ts hproc)
  exact ⟨dow_sub_one hd, rfl, rfl⟩

/-- Input row for the C8 witness. -/
def c8row : RawRow := ⟨chars "1/4/2010 19:05", chars "3", chars "a@b.cd", chars "e@f.gh"⟩

/-- The record the pipeline emits for `c8row` (2010-01-04 was a Monday;
19:00 is inside the default 18:00–07:00 after-hours window). -/
def c8rec : Record :=
  ⟨0, ⟨2010, 1, 4, 19, 5⟩, 3, chars "a@b.cd", [], [chars "e@f.gh"], [[]], 1,
    (2010, 1), 19, 0, true, false⟩

/-- Witness for C8: the derived-column theorem applied to the concrete
one-row run. -/
theorem c8_derived_columns_witness :
    c8rec.day_of_week = dayOfWeekM0 c8rec.timestamp ∧ c8rec.is_after_hours = true :=
  ⟨((c8_derived_columns defaultCfg [[c8row]] ([c8rec], 1, 0) (by decide)).1 c8rec
      (by simp)).1,
   by decide⟩

end ClaudeNetwork
